import Mathlib

set_option maxRecDepth 40000

/-!
Shallow embedding of the `distributor` repository (a BitTorrent-style file
distribution tracker written in Go) and proofs about its specification claims.

The embedding covers:
* the SHA-1 piece-hash engine `makeHashes` from `torrent.go`, including a
  byte-accurate SHA-1 implementation (bytes and 32-bit words are `Nat`s with
  explicit reduction modulo `2^32` where Go's `uint32` arithmetic wraps);
* the metadata builder `GenerateMetadataInfo` from `torrent.go`, with file
  system observations (stat size, readable content, readable-and-fresh cache
  bytes) passed in explicitly;
* the tracker announce handler `handleAnnounce` and its helpers `parsePeer`
  and the numwant computation from `tracker.go`, with Go maps embedded as
  association lists and wall-clock time as an integer parameter;
* the `/serve` request dispatch `handleServe` from `tracker.go`.

Go's `panic` and `logfatal` terminations are embedded as explicit outcome
constructors so that claims about their (non-)occurrence are statable.
-/

namespace Distributor

/-! ## Byte-level SHA-1 (as used by Go's `crypto/sha1`)

Bytes are `Nat`s in `[0, 256)`; 32-bit words are `Nat`s in `[0, 2^32)`.
-/

/-- Reduce a natural number to a 32-bit word. -/
def w32 (x : Nat) : Nat := x % 4294967296

/-- Rotate a 32-bit word left by `n` bits (assumes `x < 2^32`, `n < 32`). -/
def rotl32 (n x : Nat) : Nat := ((x <<< n) % 4294967296) ||| (x >>> (32 - n))

/-- Bitwise complement of a 32-bit word (assumes `x < 2^32`). -/
def not32 (x : Nat) : Nat := 4294967295 - x

/-- SHA-1 round constant for round `t`. -/
def sha1K (t : Nat) : Nat :=
  if t < 20 then 1518500249
  else if t < 40 then 1859775393
  else if t < 60 then 2400959708
  else 3395469782

/-- SHA-1 round function for round `t`. -/
def sha1F (t b c d : Nat) : Nat :=
  if t < 20 then (b &&& c) ||| (not32 b &&& d)
  else if t < 40 then b ^^^ c ^^^ d
  else if t < 60 then (b &&& c) ||| (b &&& d) ||| (c &&& d)
  else b ^^^ c ^^^ d

/-- Big-endian byte encoding of `n` in `k` bytes. -/
def beBytes : Nat → Nat → List Nat
  | 0, _ => []
  | k + 1, n => ((n >>> (8 * k)) % 256) :: beBytes k n

/-- Group a byte list into big-endian 32-bit words (four bytes per word). -/
def bytesToWords : List Nat → List Nat
  | b0 :: b1 :: b2 :: b3 :: rest =>
      (((b0 * 256 + b1) * 256 + b2) * 256 + b3) :: bytesToWords rest
  | _ => []

/-- Extend the 16-word message schedule by `k` further words. -/
def extendW (ws : List Nat) : Nat → List Nat
  | 0 => ws
  | k + 1 =>
      let m := ws.length
      let x := ws.getD (m - 3) 0 ^^^ ws.getD (m - 8) 0 ^^^
               ws.getD (m - 14) 0 ^^^ ws.getD (m - 16) 0
      extendW (ws ++ [rotl32 1 x]) k

/-- One SHA-1 round: state update from the round index and schedule word. -/
def sha1Round (st : Nat × Nat × Nat × Nat × Nat) (tw : Nat × Nat) :
    Nat × Nat × Nat × Nat × Nat :=
  let (a, b, c, d, e) := st
  let temp := w32 (rotl32 5 a + sha1F tw.1 b c d + e + sha1K tw.1 + tw.2)
  (temp, a, rotl32 30 b, c, d)

/-- Compress one 64-byte block into the running SHA-1 state. -/
def sha1Block (h : Nat × Nat × Nat × Nat × Nat) (block : List Nat) :
    Nat × Nat × Nat × Nat × Nat :=
  let ws := extendW (bytesToWords block) 64
  let (a, b, c, d, e) := ws.enum.foldl sha1Round h
  (w32 (h.1 + a), w32 (h.2.1 + b), w32 (h.2.2.1 + c),
   w32 (h.2.2.2.1 + d), w32 (h.2.2.2.2 + e))

/-- Append the SHA-1 padding: a `0x80` byte, zeros, and the 64-bit
big-endian bit length, reaching a multiple of 64 bytes. -/
def sha1Pad (msg : List Nat) : List Nat :=
  let l := msg.length
  let z := (119 - l % 64) % 64
  msg ++ 128 :: List.replicate z 0 ++ beBytes 8 (8 * l)

/-- Fuel-driven worker for `chunksOf`. -/
def chunksOfF : Nat → Nat → List α → List (List α)
  | 0, _, _ => []
  | _ + 1, _, [] => []
  | fuel + 1, n, l => l.take n :: chunksOfF fuel n (l.drop n)

/-- Split a list into consecutive chunks of `n` elements (the final chunk may
be shorter); returns `[]` when `n = 0`.  Defined through the structurally
recursive `chunksOfF` with sufficient fuel. -/
def chunksOf (n : Nat) (l : List α) : List (List α) :=
  if n = 0 then [] else chunksOfF (l.length + 1) n l

/-- SHA-1 digest (20 bytes) of a byte list. -/
def sha1 (msg : List Nat) : List Nat :=
  let blocks := chunksOf 64 (sha1Pad msg)
  let st := blocks.foldl sha1Block
    (1732584193, 4023233417, 2562383102, 271733878, 3285377520)
  beBytes 4 st.1 ++ beBytes 4 st.2.1 ++ beBytes 4 st.2.2.1 ++
    beBytes 4 st.2.2.2.1 ++ beBytes 4 st.2.2.2.2

/-! ## Hash engine: `makeHashes` (`torrent.go`)

The byte source is a `List Nat` holding exactly the bytes the reader will
deliver before end-of-stream.  Each `io.ReadAtLeast(data, buf, min)` call with
the `PIECE_LENGTH`-sized buffer is modelled by its behaviour on the readers
the repository uses (`os.File`, `strings.Reader`), which deliver
`min remaining PIECE_LENGTH` bytes per call: it yields that many bytes with no
error when the source still holds at least `min` bytes, yields `io.EOF` when
the source is exhausted, and yields `io.ErrUnexpectedEOF` when the source ends
after delivering fewer than `min` bytes.
-/

/-- Size of pieces, `PIECE_LENGTH = int64(256 * 1024)` from `torrent.go`. -/
def PIECE_LENGTH : Nat := 262144

/-- Result of `makeHashes`: the Go triple `([][]byte, int64, error)`, with the
two shapes that actually occur (`err == nil`, or an error with zeroed
results). -/
inductive HashResult where
  | ok (hashes : List (List Nat)) (bytesRead : Nat)
  | err (msg : String)
deriving DecidableEq, Repr

/-- Loop body of `makeHashes`, driven by fuel (each iteration of the Go loop
consumes at least one source byte, so `src.length + 1` fuel is always enough):
`src` is what the reader will still deliver, `dataSize` the declared length,
`bytesRead` and `acc` the accumulators.  `bytesToRead < 0` is the
`dataSize < bytesRead` comparison on `Nat`. -/
def makeHashesLoopF : Nat → List Nat → Nat → Nat → List (List Nat) → HashResult
  | 0, _, _, _, _ => .err "out of fuel"
  | fuel + 1, src, dataSize, bytesRead, acc =>
    if dataSize < bytesRead then
      .ok [] 0
    else
      let bytesToRead := min (dataSize - bytesRead) PIECE_LENGTH
      if bytesToRead = 0 then
        .ok acc bytesRead
      else if src = [] then
        .ok acc bytesRead
      else if src.length < bytesToRead then
        .err "Failed to read: unexpected EOF"
      else
        let n := min src.length PIECE_LENGTH
        makeHashesLoopF fuel (src.drop n) dataSize (bytesRead + n)
          (acc ++ [sha1 (src.take n)])

/-- Model of `makeHashes(data, dataSize)` from `torrent.go`. -/
def makeHashes (src : List Nat) (dataSize : Nat) : HashResult :=
  makeHashesLoopF (src.length + 1) src dataSize 0 []

/-! ## Metadata builder: `GenerateMetadataInfo` (`torrent.go`)

The file-system observations made by the Go function are passed in as a
`FileObs` record: the stat size, the bytes the opened file will deliver, and
the cache sidecar's bytes when `os.Stat`/`ioutil.ReadFile` on
`<file>.mdcache` succeed *and* the file's mtime is not after the cache's
(otherwise `none`, which also covers the `Cache invalid: updated more
recently` branch).  `logfatal` terminates the process and runtime panics are
represented by explicit outcome constructors.
-/

/-- The `MetadataInfo` struct from `torrent.go` (`Pieces` as raw bytes). -/
structure MetadataInfo where
  Name : String
  PieceLength : Nat
  Pieces : List Nat
  Length : Nat
deriving DecidableEq, Repr

/-- Outcome of `GenerateMetadataInfo`: a nil-nil return, a metadata record, a
`logfatal` process abort, or a runtime panic (out-of-range index). -/
inductive GenOutcome where
  | nilResult
  | ok (mi : MetadataInfo)
  | fatal (msg : String)
  | panicked
deriving DecidableEq, Repr

/-- File-system observations consumed by one `GenerateMetadataInfo` run. -/
structure FileObs where
  size : Nat
  content : List Nat
  cacheBytes : Option (List Nat)
deriving DecidableEq, Repr

/-- Model of `GenerateMetadataInfo(fqfn)` from `torrent.go` for a file whose
stat succeeds (`name` is `filepath.Base(fqfn)`).  `hashCount` is
`int(math.Ceil(float64(size) / float64(PIECE_LENGTH)))`.  In the Go source the
cache branch declares `hashes := make([][]byte, 0, hashCount)` with `:=`,
creating a *new* local that shadows the outer `var hashes [][]byte`; the
loaded cache digests are appended to the shadowed local (`shadowedHashes`
below) and the outer `hashes` stays nil, so the later `hashes[0]` in the
logdebug call indexes a nil slice. -/
def GenerateMetadataInfo (name : String) (f : FileObs) : GenOutcome :=
  if f.size = 0 then .nilResult
  else
    let hashCount := (f.size + PIECE_LENGTH - 1) / PIECE_LENGTH
    let use_cache : Bool := match f.cacheBytes with
      | some cb => cb.length == hashCount * 20
      | none => false
    if use_cache then
      let shadowedHashes := (List.range hashCount).map
        (fun i => ((f.cacheBytes.getD []).drop (i * 20)).take 20)
      let _ := shadowedHashes
      let hashes : List (List Nat) := []
      match hashes with
      | [] => .panicked
      | _ :: _ => .ok ⟨name, PIECE_LENGTH, hashes.flatten, f.size⟩
    else
      match makeHashes f.content f.size with
      | .err m => .fatal m
      | .ok hs bytesRead =>
        if bytesRead ≠ f.size then .fatal "read size mismatch"
        else
          match hs with
          | [] => .panicked
          | _ :: _ => .ok ⟨name, PIECE_LENGTH, hs.flatten, f.size⟩

/-! ## Association lists standing in for Go maps

Go's `map[string]V` is embedded as `List (String × V)`: `alookup` is map
indexing, `aupsert` is map assignment (replace the entry if the key is
present, otherwise append), `aeraseKey` is `delete`.  Reachable map states
have no duplicate keys; iteration order (unspecified in Go) is the list
order. -/

/-- Map indexing `m[k]` (first entry with the key). -/
def alookup {β : Type} : List (String × β) → String → Option β
  | [], _ => none
  | (k, v) :: rest, key => if k = key then some v else alookup rest key

/-- Map assignment `m[k] = v`. -/
def aupsert {β : Type} : List (String × β) → String → β → List (String × β)
  | [], key, v => [(key, v)]
  | (k, w) :: rest, key, v =>
      if k = key then (k, v) :: rest else (k, w) :: aupsert rest key v

/-- Map deletion `delete(m, k)`. -/
def aeraseKey {β : Type} : List (String × β) → String → List (String × β)
  | [], _ => []
  | (k, v) :: rest, key =>
      if k = key then aeraseKey rest key else (k, v) :: aeraseKey rest key

/-- Deletion of every key in `ks` (the `for _, id := range toRemove` loop). -/
def aeraseKeys {β : Type} : List (String × β) → List String → List (String × β)
  | [], _ => []
  | (k, v) :: rest, ks =>
      if k ∈ ks then aeraseKeys rest ks else (k, v) :: aeraseKeys rest ks

/-! ## Tracker: `parsePeer`, `handleAnnounce`, `handleServe` (`tracker.go`)

`url.Values` is `List (String × List String)`.  The remote socket address is
a `String`; wall-clock time is an integer number of seconds (`now`), and a
stored `last_seen` timestamp `ts` gives `time.Since(ts) = now - ts`. -/

/-- The `Peer` struct from `tracker.go`. -/
structure Peer where
  Id : String
  Ip : String
  Port : Nat
deriving DecidableEq, Repr

/-- Parsed query parameters, standing in for `url.Values`. -/
abbrev Values : Type := List (String × List String)

/-- Model of `strconv.ParseUint(s, 10, bits)`: `none` on the empty string, on
any non-digit character (base 10 admits no sign and no underscores), and on
values outside `[0, 2^bits)` (Go's range error). -/
def parseUint (s : String) (bits : Nat) : Option Nat :=
  let cs := s.data
  if cs.isEmpty then none
  else if cs.all Char.isDigit then
    let v := cs.foldl (fun a c => a * 10 + (c.toNat - 48)) 0
    if v < 2 ^ bits then some v else none
  else none

/-- Outcome of `parsePeer`: the two error returns, the `logfatal` on a weird
remote address, the runtime panic from indexing a nil `strport`, or a parsed
peer. -/
inductive PeerParse where
  | missingArg
  | portInvalid
  | fatalAddr
  | panicked
  | ok (p : Peer)
deriving DecidableEq, Repr

/-- The `ip` resolution inside `parsePeer`: the `ip` query parameter if
present, else the remote address split on `":"`, which must yield exactly two
pieces (`none` is the `logfatal("Got weird address")` path).  A present key
never maps to `[]` in `url.Values`, so that unreachable shape is folded into
the absent case. -/
def resolveIp (values : Values) (remoteAddr : String) : Option String :=
  match alookup values "ip" with
  | some (i :: _) => some i
  | _ =>
    match remoteAddr.splitOn ":" with
    | [a, _] => some a
    | _ => none

/-- Model of `parsePeer(r, values)` from `tracker.go`.  The Go flag logic:
`ok` is true when `peer_id` is present; only when additionally
`len(peer_id) == 1` is `port` looked up (resetting `ok`); the `!ok` check
then reports `missing required argument`.  When `len(peer_id) != 1`,
`strport` remains nil with `ok` still true, and `strport[0]` panics after the
ip resolution. -/
def parsePeer (values : Values) (remoteAddr : String) : PeerParse :=
  match alookup values "peer_id" with
  | none => .missingArg
  | some peer_id =>
    let strport : Option (List String) :=
      if peer_id.length = 1 then alookup values "port" else none
    if peer_id.length = 1 ∧ strport = none then .missingArg
    else
      match resolveIp values remoteAddr with
      | none => .fatalAddr
      | some ip =>
        match strport with
        | some (sp :: _) =>
          match parseUint sp 16 with
          | none => .portInvalid
          | some port => .ok ⟨peer_id.headD "", ip, port⟩
        | _ => .panicked

/-- Model of the `numwant` computation in `handleAnnounce` (`tracker.go`): 50
when the parameter is not supplied exactly once, otherwise
`strconv.ParseUint(_, 10, 8)` with any error or a value above 100 replaced by
100. -/
def effectiveNumwant (values : Values) : Nat :=
  match alookup values "numwant" with
  | some (s :: []) =>
    match parseUint s 8 with
    | some v => if v > 100 then 100 else v
    | none => 100
  | _ => 50

/-- Model of the `info_hash` extraction in `handleAnnounce`: the value when
supplied exactly once, otherwise the zero value `""`. -/
def infoHashOf (values : Values) : String :=
  match alookup values "info_hash" with
  | some (h :: []) => h
  | _ => ""

/-- Model of the `event` extraction in `handleAnnounce`: the value when
supplied exactly once, otherwise the zero value `""`. -/
def eventOf (values : Values) : String :=
  match alookup values "event" with
  | some (e :: []) => e
  | _ => ""

/-- The condition under which a new `peer_id`'s arrival removes an existing
entry `q` in `handleAnnounce`: `q` has the arriving peer's ip, or — through
the `else if pok && peerage > 300*time.Second` branch, where `pok`/`peerage`
come from the *arriving* peer's `peerseen` entry — the arriving peer was last
seen more than 300 seconds ago.  (The `else if` yields the same set as this
disjunction, since the first condition already collects the equal-ip
entries.) -/
def purgeCond (q peer : Peer) (arrivalSeen : Option Int) (now : Int) : Bool :=
  q.Ip == peer.Ip ||
    match arrivalSeen with
    | some ts => decide (now - ts > 300)
    | none => false

/-- The removal list itself: ids of the entries satisfying `purgeCond`, in
iteration order. -/
def announceToRemove (peers0 : List (String × Peer)) (peer : Peer)
    (arrivalSeen : Option Int) (now : Int) : List String :=
  (peers0.filter (fun e => purgeCond e.2 peer arrivalSeen now)).map (fun e => e.1)

/-- The response-list loop of `handleAnnounce` (`ct` counts every iterated
peer; the loop breaks once `ct` exceeds `numwant = cap(outPeers)`, and skips
entries sharing the requester's ip). -/
def selectPeersLoop : List Peer → String → Nat → Nat → List Peer
  | [], _, _, _ => []
  | p :: rest, ip, numwant, ct =>
    if ct + 1 > numwant then []
    else if p.Ip = ip then selectPeersLoop rest ip numwant (ct + 1)
    else p :: selectPeersLoop rest ip numwant (ct + 1)

/-- The response peer list: the loop over the per-info-hash peer map (in
iteration order) starting with `ct = 0`. -/
def selectPeers (l : List Peer) (ip : String) (numwant : Nat) : List Peer :=
  selectPeersLoop l ip numwant 0

/-- The `Tracker` registry state from `tracker.go`: `PeerSeen` maps an
info-hash to its `peer_id → last_seen` map, `PeerList` to its
`peer_id → Peer` map. -/
structure Tracker where
  PeerSeen : List (String × List (String × Int))
  PeerList : List (String × List (String × Peer))
deriving DecidableEq, Repr

/-- The peer map registered for an info-hash (empty when absent, as
`handleAnnounce` creates absent entries before using them). -/
def peersOf (t : Tracker) (h : String) : List (String × Peer) :=
  (alookup t.PeerList h).getD []

/-- The last-seen map registered for an info-hash (empty when absent). -/
def seenOf (t : Tracker) (h : String) : List (String × Int) :=
  (alookup t.PeerSeen h).getD []

/-- Observable outcome of `handleAnnounce`: a plain-text error body, a
`logfatal` abort, a runtime panic, or a bencoded response carrying the peer
list (the random `interval` field is not modelled; no claim mentions it). -/
inductive AnnounceOut where
  | errorBody (s : String)
  | fatal
  | panicked
  | ok (peers : List Peer)
deriving DecidableEq, Repr

/-- The purge-and-insert step of `handleAnnounce` for the request's
info-hash: when the arriving `peer_id` is already present both maps pass
through unchanged; when it is new, the entries collected by
`announceToRemove` are deleted from both maps and the arriving peer is
inserted into the peer map. -/
def announcePurged (t : Tracker) (values : Values) (now : Int) (peer : Peer) :
    List (String × Peer) × List (String × Int) :=
  let peers0 := peersOf t (infoHashOf values)
  let seen0 := seenOf t (infoHashOf values)
  match alookup peers0 peer.Id with
  | some _ => (peers0, seen0)
  | none =>
    let toRemove := announceToRemove peers0 peer (alookup seen0 peer.Id) now
    (aupsert (aeraseKeys peers0 toRemove) peer.Id peer,
     aeraseKeys seen0 toRemove)

/-- The peer map for the request's info-hash after the whole handler body:
the purge-and-insert step followed by the `event == "stopped"` deletion. -/
def announcePeers2 (t : Tracker) (values : Values) (now : Int) (peer : Peer) :
    List (String × Peer) :=
  if eventOf values = "stopped" then
    aeraseKey (announcePurged t values now peer).1 peer.Id
  else (announcePurged t values now peer).1

/-- The last-seen map for the request's info-hash after the whole handler
body: the purge step followed by `peerseen[peer.Id] = time.Now()`. -/
def announceSeen2 (t : Tracker) (values : Values) (now : Int) (peer : Peer) :
    List (String × Int) :=
  aupsert (announcePurged t values now peer).2 peer.Id now

/-- The `.ok peer` continuation of `handleAnnounce` (everything after
`parsePeer` succeeds). -/
def handleAnnounceOk (t : Tracker) (values : Values) (now : Int) (peer : Peer) :
    Tracker × AnnounceOut :=
  let info_hash := infoHashOf values
  let numwant := effectiveNumwant values
  let peers2 := announcePeers2 t values now peer
  let seen2 := announceSeen2 t values now peer
  let outPeers := selectPeers (peers2.map (fun e => e.2)) peer.Ip numwant
  (⟨aupsert t.PeerSeen info_hash seen2, aupsert t.PeerList info_hash peers2⟩,
   .ok outPeers)

/-- Model of `handleAnnounce(w, r)` from `tracker.go`: returns the updated
registry and the observable response.  On a `parsePeer` failure the registry
is returned untouched (the handler writes the error body and returns).
Otherwise the per-info-hash maps are created if absent, the arriving peer's
prior `last_seen` is read (`pok`/`peerage`), a new `peer_id` triggers the
purge and is inserted, `last_seen[peer.Id]` is set to `now`,
`event == "stopped"` deletes the peer from the peer map only, and the
response list is drawn from the remaining peers. -/
def handleAnnounce (t : Tracker) (values : Values) (remoteAddr : String)
    (now : Int) : Tracker × AnnounceOut :=
  match parsePeer values remoteAddr with
  | .missingArg => (t, .errorBody "missing required argument")
  | .portInvalid => (t, .errorBody "port invalid")
  | .fatalAddr => (t, .fatal)
  | .panicked => (t, .panicked)
  | .ok peer => handleAnnounceOk t values now peer

/-- Splitting a request URI at the first `?`: `strings.SplitN(uri, "?", 2)`
over a character list, returning the part after the separator when the
separator occurs (`none` models the one-piece result). -/
def splitQ : List Char → Option (List Char)
  | [] => none
  | c :: rest => if c = '?' then some rest else splitQ rest

/-- Observable behaviour of `handleServe`: either the literal
`"invalid request"` body written when `SplitN` yields fewer than two pieces
(the handler returns at once, with no file lookup, no metadata wait and no
seed start), or continuing into `findFile`/`serveFile` with the query as the
file identifier. -/
inductive ServeAction where
  | invalidRequest
  | lookupFile (query : List Char)
deriving DecidableEq, Repr

/-- Model of the dispatch prefix of `handleServe` from `tracker.go`. -/
def handleServe (uri : List Char) : ServeAction :=
  match splitQ uri with
  | none => .invalidRequest
  | some q => .lookupFile q

/-- The per-info-hash registry invariant from the spec: the peer map and
last-seen map carry the same key set. -/
def sameKeys (ps : List (String × Peer)) (ss : List (String × Int)) : Prop :=
  ∀ id, (alookup ps id).isSome ↔ (alookup ss id).isSome

/-! ## Helper lemmas about the association-list operations -/

theorem alookup_aupsert_self {β : Type} (l : List (String × β)) (k : String) (v : β) :
    alookup (aupsert l k v) k = some v := by
  induction l with
  | nil => simp [aupsert, alookup]
  | cons e rest ih =>
    obtain ⟨k', w⟩ := e
    by_cases h : k' = k <;> simp [aupsert, alookup, h, ih]

theorem alookup_aupsert_ne {β : Type} (l : List (String × β)) (k k' : String) (v : β)
    (h : k' ≠ k) : alookup (aupsert l k v) k' = alookup l k' := by
  have hkk : ¬ (k = k') := fun hh => h hh.symm
  induction l with
  | nil => simp only [aupsert, alookup, if_neg hkk]
  | cons e rest ih =>
    obtain ⟨k0, w⟩ := e
    by_cases h0 : k0 = k
    · subst h0
      simp only [aupsert, if_pos rfl, alookup, if_neg hkk]
    · simp only [aupsert, if_neg h0, alookup]
      by_cases h1 : k0 = k'
      · simp only [if_pos h1]
      · simp only [if_neg h1, ih]

theorem alookup_aeraseKey_ne {β : Type} (l : List (String × β)) (k k' : String)
    (h : k' ≠ k) : alookup (aeraseKey l k) k' = alookup l k' := by
  induction l with
  | nil => rfl
  | cons e rest ih =>
    obtain ⟨k0, w⟩ := e
    by_cases h0 : k0 = k
    · subst h0
      have hne : ¬ (k0 = k') := fun hh => h (hh ▸ rfl)
      simp [aeraseKey, alookup, if_neg hne, ih]
    · simp only [aeraseKey, if_neg h0, alookup]
      by_cases h1 : k0 = k'
      · simp only [if_pos h1]
      · simp only [if_neg h1, ih]

theorem alookup_aeraseKeys {β : Type} (l : List (String × β)) (ks : List String)
    (k : String) :
    alookup (aeraseKeys l ks) k = if k ∈ ks then none else alookup l k := by
  induction l with
  | nil => simp [aeraseKeys, alookup]
  | cons e rest ih =>
    obtain ⟨k0, w⟩ := e
    by_cases hmem : k0 ∈ ks
    · rw [show aeraseKeys ((k0, w) :: rest) ks = aeraseKeys rest ks by
        simp [aeraseKeys, hmem]]
      rw [ih]
      by_cases hk : k ∈ ks
      · simp [hk]
      · have hne : ¬ (k0 = k) := fun hh => hk (hh ▸ hmem)
        simp [hk, alookup, if_neg hne]
    · rw [show aeraseKeys ((k0, w) :: rest) ks = (k0, w) :: aeraseKeys rest ks by
        simp [aeraseKeys, hmem]]
      by_cases h1 : k0 = k
      · subst h1
        simp [alookup, hmem]
      · simp only [alookup, if_neg h1, ih]

theorem alookup_mem {β : Type} (l : List (String × β)) (k : String) (v : β)
    (h : alookup l k = some v) : (k, v) ∈ l := by
  induction l with
  | nil => simp [alookup] at h
  | cons e rest ih =>
    obtain ⟨k0, w⟩ := e
    by_cases h0 : k0 = k
    · subst h0
      rw [alookup, if_pos rfl] at h
      cases h
      exact List.mem_cons_self _ _
    · rw [alookup, if_neg h0] at h
      exact List.mem_cons_of_mem _ (ih h)

theorem mem_alookup_of_nodup {β : Type} (l : List (String × β)) (k : String) (v : β)
    (hnd : (l.map Prod.fst).Nodup) (h : (k, v) ∈ l) : alookup l k = some v := by
  induction l with
  | nil => simp at h
  | cons e rest ih =>
    obtain ⟨k0, w⟩ := e
    simp only [List.map_cons, List.nodup_cons] at hnd
    rcases List.mem_cons.mp h with heq | hrest
    · cases heq
      simp [alookup]
    · have hk : k0 ≠ k := by
        intro hk
        subst hk
        exact hnd.1 (List.mem_map.mpr ⟨(k0, v), hrest, rfl⟩)
      simp only [alookup, if_neg hk]
      exact ih hnd.2 hrest

/-- Membership in the purge list: an id is collected exactly when it has an
entry in the iterated peer map satisfying `purgeCond`. -/
theorem mem_announceToRemove (peers0 : List (String × Peer)) (peer : Peer)
    (s : Option Int) (now : Int) (id : String) :
    id ∈ announceToRemove peers0 peer s now ↔
      ∃ q, (id, q) ∈ peers0 ∧ purgeCond q peer s now = true := by
  unfold announceToRemove
  simp only [List.mem_map, List.mem_filter]
  constructor
  · rintro ⟨⟨i, q⟩, ⟨hmem, hcond⟩, rfl⟩
    exact ⟨q, hmem, hcond⟩
  · rintro ⟨q, hmem, hcond⟩
    exact ⟨(id, q), ⟨hmem, hcond⟩, rfl⟩

/-! ## Helper lemmas about the response-selection loop -/

theorem selectPeersLoop_ip (l : List Peer) (ip : String) (numwant : Nat) :
    ∀ ct q, q ∈ selectPeersLoop l ip numwant ct → q.Ip ≠ ip := by
  induction l with
  | nil => intro ct q h; simp [selectPeersLoop] at h
  | cons p rest ih =>
    intro ct q h
    by_cases hb : ct + 1 > numwant
    · simp [selectPeersLoop, hb] at h
    · by_cases hip : p.Ip = ip
      · simp only [selectPeersLoop, if_neg hb, if_pos hip] at h
        exact ih (ct + 1) q h
      · simp only [selectPeersLoop, if_neg hb, if_neg hip, List.mem_cons] at h
        rcases h with rfl | h
        · exact hip
        · exact ih (ct + 1) q h

theorem selectPeersLoop_length (l : List Peer) (ip : String) (numwant : Nat) :
    ∀ ct, (selectPeersLoop l ip numwant ct).length ≤ numwant - ct := by
  induction l with
  | nil => intro ct; simp [selectPeersLoop]
  | cons p rest ih =>
    intro ct
    by_cases hb : ct + 1 > numwant
    · simp [selectPeersLoop, hb]
    · by_cases hip : p.Ip = ip
      · simp only [selectPeersLoop, if_neg hb, if_pos hip]
        have := ih (ct + 1)
        omega
      · simp only [selectPeersLoop, if_neg hb, if_neg hip, List.length_cons]
        have := ih (ct + 1)
        omega

theorem selectPeers_spec (l : List Peer) (ip : String) (numwant : Nat) :
    (∀ q ∈ selectPeers l ip numwant, q.Ip ≠ ip) ∧
      (selectPeers l ip numwant).length ≤ numwant := by
  refine ⟨fun q h => selectPeersLoop_ip l ip numwant 0 q h, ?_⟩
  have := selectPeersLoop_length l ip numwant 0
  simpa using this

/-! ## Helper lemmas about chunking and the hash-engine loop -/

theorem chunksOfF_congr {α : Type} (n : Nat) (hn : 0 < n) :
    ∀ f1 (l : List α) (f2 : Nat), l.length < f1 → l.length < f2 →
      chunksOfF f1 n l = chunksOfF f2 n l := by
  intro f1
  induction f1 with
  | zero => intro l f2 h1 _; omega
  | succ f ih =>
    intro l f2 h1 h2
    match l, f2 with
    | [], 0 => simp at h2
    | [], g + 1 => rfl
    | x :: xs, 0 => simp at h2
    | x :: xs, g + 1 =>
      show (x :: xs).take n :: chunksOfF f n ((x :: xs).drop n) =
        (x :: xs).take n :: chunksOfF g n ((x :: xs).drop n)
      congr 1
      have hlen : ((x :: xs).drop n).length = xs.length + 1 - n := by simp
      apply ih
      · simp only [List.length_cons] at h1
        omega
      · simp only [List.length_cons] at h2
        omega

theorem chunksOf_nil {α : Type} (n : Nat) : chunksOf n ([] : List α) = [] := by
  by_cases h : n = 0 <;> simp [chunksOf, h, chunksOfF]

theorem chunksOf_cons {α : Type} (n : Nat) (l : List α) (hn : 0 < n)
    (hl : l ≠ []) : chunksOf n l = l.take n :: chunksOf n (l.drop n) := by
  have hn' : ¬ (n = 0) := by omega
  unfold chunksOf
  rw [if_neg hn', if_neg hn']
  match l with
  | x :: xs =>
    show (x :: xs).take n :: chunksOfF ((x :: xs).length) n ((x :: xs).drop n) = _
    congr 1
    apply chunksOfF_congr n hn
    · have : ((x :: xs).drop n).length = xs.length + 1 - n := by simp
      simp only [List.length_cons]
      omega
    · omega

theorem piece_length_pos : 0 < PIECE_LENGTH := by decide

theorem mod_piece_length_eq_zero {m : Nat} (h : PIECE_LENGTH ∣ m) :
    m % PIECE_LENGTH = 0 := by
  obtain ⟨c, rfl⟩ := h
  simp [Nat.mul_mod_right]

/-- Behaviour of the hash-engine loop on a source that ends strictly before
the declared size is reached: sources ending at a piece boundary break out on
the clean `io.EOF` with the digests collected so far, sources ending
mid-request hit `io.ErrUnexpectedEOF`. -/
theorem makeHashesLoopF_shrink :
    ∀ fuel (src : List Nat) (dataSize bytesRead : Nat) (acc : List (List Nat)),
      src.length < fuel → src.length + bytesRead < dataSize →
      (src.length % PIECE_LENGTH = 0 →
        makeHashesLoopF fuel src dataSize bytesRead acc =
          .ok (acc ++ (chunksOf PIECE_LENGTH src).map sha1) (bytesRead + src.length)) ∧
      (src.length % PIECE_LENGTH ≠ 0 →
        makeHashesLoopF fuel src dataSize bytesRead acc =
          .err "Failed to read: unexpected EOF") := by
  intro fuel
  induction fuel with
  | zero => intro src ds br acc h1 _; omega
  | succ f ih =>
    intro src ds br acc h1 h2
    have hbr : ¬ ds < br := by omega
    have hmin_pos : 0 < min (ds - br) PIECE_LENGTH :=
      lt_min_iff.mpr ⟨by omega, piece_length_pos⟩
    have hbtr0 : ¬ (min (ds - br) PIECE_LENGTH = 0) := by omega
    constructor
    · intro hmod
      cases src with
      | nil =>
        simp [makeHashesLoopF, if_neg hbr, if_neg hbtr0, chunksOf_nil]
      | cons x xs =>
        have hLpos : 0 < (x :: xs).length := by simp
        have hLge : PIECE_LENGTH ≤ (x :: xs).length :=
          Nat.le_of_dvd hLpos (Nat.dvd_of_mod_eq_zero hmod)
        have hcons : ¬ ((x :: xs) = ([] : List Nat)) := by simp
        have hbtr_eq : min (ds - br) PIECE_LENGTH = PIECE_LENGTH := by
          simp only [List.length_cons] at h2 hLge
          exact min_eq_right (by omega)
        have hnoerr : ¬ ((x :: xs).length < min (ds - br) PIECE_LENGTH) := by
          rw [hbtr_eq]; omega
        have hn_eq : min (x :: xs).length PIECE_LENGTH = PIECE_LENGTH :=
          min_eq_right hLge
        rw [makeHashesLoopF, if_neg hbr, if_neg hbtr0, if_neg hcons,
          if_neg hnoerr, hn_eq]
        have hlen : ((x :: xs).drop PIECE_LENGTH).length =
          (x :: xs).length - PIECE_LENGTH := by simp
        have hrec := ih ((x :: xs).drop PIECE_LENGTH) ds (br + PIECE_LENGTH)
          (acc ++ [sha1 ((x :: xs).take PIECE_LENGTH)])
          (by rw [hlen]; have hpl := piece_length_pos; omega)
          (by rw [hlen]; omega)
        have hdvd : PIECE_LENGTH ∣ (x :: xs).length := Nat.dvd_of_mod_eq_zero hmod
        have hmod' : ((x :: xs).drop PIECE_LENGTH).length % PIECE_LENGTH = 0 := by
          rw [hlen]
          exact mod_piece_length_eq_zero (Nat.dvd_sub' hdvd dvd_rfl)
        rw [hrec.1 hmod']
        rw [chunksOf_cons PIECE_LENGTH (x :: xs) piece_length_pos hcons]
        simp only [List.map_cons, List.append_assoc, List.singleton_append,
          HashResult.ok.injEq]
        refine ⟨by trivial, ?_⟩
        rw [hlen]
        omega
    · intro hmod
      cases src with
      | nil => simp at hmod
      | cons x xs =>
        by_cases hL : (x :: xs).length < PIECE_LENGTH
        · have hbtr_gt : (x :: xs).length < min (ds - br) PIECE_LENGTH := by
            simp only [List.length_cons] at h2 ⊢
            exact lt_min_iff.mpr ⟨by omega, by simpa using hL⟩
          have hcons : ¬ ((x :: xs) = ([] : List Nat)) := by simp
          rw [makeHashesLoopF, if_neg hbr, if_neg hbtr0, if_neg hcons,
            if_pos hbtr_gt]
        · have hLge : PIECE_LENGTH ≤ (x :: xs).length := by omega
          have hcons : ¬ ((x :: xs) = ([] : List Nat)) := by simp
          have hbtr_eq : min (ds - br) PIECE_LENGTH = PIECE_LENGTH := by
            simp only [List.length_cons] at h2 hLge
            exact min_eq_right (by omega)
          have hnoerr : ¬ ((x :: xs).length < min (ds - br) PIECE_LENGTH) := by
            rw [hbtr_eq]; omega
          have hn_eq : min (x :: xs).length PIECE_LENGTH = PIECE_LENGTH :=
            min_eq_right hLge
          rw [makeHashesLoopF, if_neg hbr, if_neg hbtr0, if_neg hcons,
            if_neg hnoerr, hn_eq]
          have hlen : ((x :: xs).drop PIECE_LENGTH).length =
            (x :: xs).length - PIECE_LENGTH := by simp
          have hrec := ih ((x :: xs).drop PIECE_LENGTH) ds (br + PIECE_LENGTH)
            (acc ++ [sha1 ((x :: xs).take PIECE_LENGTH)])
            (by rw [hlen]; have hpl := piece_length_pos; omega)
            (by rw [hlen]; omega)
          have hmod' : ((x :: xs).drop PIECE_LENGTH).length % PIECE_LENGTH ≠ 0 := by
            rw [hlen]
            intro hc
            apply hmod
            have hdvd' : PIECE_LENGTH ∣ ((x :: xs).length - PIECE_LENGTH) :=
              Nat.dvd_of_mod_eq_zero hc
            have hdvd : PIECE_LENGTH ∣ (x :: xs).length := by
              have hadd := Nat.dvd_add hdvd' (dvd_refl PIECE_LENGTH)
              rwa [Nat.sub_add_cancel hLge] at hadd
            exact mod_piece_length_eq_zero hdvd
          exact hrec.2 hmod'

/-- A URI without a question mark splits into a single piece. -/
theorem splitQ_eq_none (uri : List Char) (h : '?' ∉ uri) : splitQ uri = none := by
  induction uri with
  | nil => rfl
  | cons c rest ih =>
    have hc : ¬ (c = '?') := fun hh => h (hh ▸ List.mem_cons_self c rest)
    rw [splitQ, if_neg hc]
    exact ih (fun hm => h (List.mem_cons_of_mem c hm))

/-! ## Claim C4 -/

/-- C4, counterexample: a source delivering only the 3 bytes `tes` against a
declared length of 7 signals the file shrank (end-of-stream before 7 bytes),
yet `makeHashes` returns a read error — not the empty digest sequence with
zero bytes and no error that the claim asserts. -/
theorem C4_counterexample :
    makeHashes [116, 101, 115] 7 = .err "Failed to read: unexpected EOF" ∧
      makeHashes [116, 101, 115] 7 ≠ .ok [] 0 := by
  decide

/-- C4, amended: for every byte source that ends before the declared total
length `N` is delivered, the engine returns the digests of the fully
delivered pieces together with the delivered byte count and no error when the
shortfall falls on a piece boundary (in particular an empty result with zero
bytes only when nothing was delivered), and returns a read error when the
source ends mid-piece. -/
theorem C4_shrunk_source (src : List Nat) (N : Nat) (h : src.length < N) :
    (src.length % PIECE_LENGTH = 0 →
      makeHashes src N = .ok ((chunksOf PIECE_LENGTH src).map sha1) src.length) ∧
    (src.length % PIECE_LENGTH ≠ 0 →
      makeHashes src N = .err "Failed to read: unexpected EOF") := by
  have hl := makeHashesLoopF_shrink (src.length + 1) src N 0 []
    (by omega) (by omega)
  refine ⟨fun hm => ?_, fun hm => ?_⟩
  · have := hl.1 hm
    simpa [makeHashes] using this
  · have := hl.2 hm
    simpa [makeHashes] using this

/-- C4, witness for the amended theorem: the empty source against declared
length 5 ends at a piece boundary having delivered nothing, so the engine
returns no digests, zero bytes and no error. -/
theorem C4_shrunk_source_witness : makeHashes [] 5 = .ok [] 0 := by
  have h := (C4_shrunk_source [] 5 (by decide)).1 (by decide)
  simpa [chunksOf_nil] using h

/-! ## Claim C5 -/

/-- C5: hashing the 7-byte file `testing` yields the 20-byte piece digest
that the builder persists to the `.mdcache` sidecar (second conjunct), but a
subsequent run that accepts exactly those 20 cached bytes as a valid cache
panics instead of reproducing the concatenated pieces: the Go cache branch
declares `hashes :=` with a short variable declaration, shadowing the outer
`hashes`, so the outer slice stays nil and `hashes[0]` indexes a nil slice
(first conjunct).  This contradicts the claimed cache round-trip. -/
theorem C5_cache_run_panics :
    GenerateMetadataInfo "f" ⟨7, [116, 101, 115, 116, 105, 110, 103],
      some [220, 114, 74, 241, 143, 189, 212, 229, 145, 137, 245, 254,
            118, 138, 95, 131, 17, 82, 112, 80]⟩ = .panicked ∧
    GenerateMetadataInfo "f" ⟨7, [116, 101, 115, 116, 105, 110, 103], none⟩ =
      .ok ⟨"f", PIECE_LENGTH,
        [220, 114, 74, 241, 143, 189, 212, 229, 145, 137, 245, 254,
         118, 138, 95, 131, 17, 82, 112, 80], 7⟩ := by
  decide

/-! ## Claim C6 -/

/-- C6: the hash engine applied to the 7-byte ASCII input `testing` with
declared length 7 returns exactly one digest, equal to the 20 bytes
`DC 72 4A F1 8F BD D4 E5 91 89 F5 FE 76 8A 5F 83 11 52 70 50`, reports 7
bytes consumed, and returns no error. -/
theorem C6_makeHashes_testing :
    makeHashes [116, 101, 115, 116, 105, 110, 103] 7 =
      .ok [[220, 114, 74, 241, 143, 189, 212, 229, 145, 137, 245, 254,
            118, 138, 95, 131, 17, 82, 112, 80]] 7 := by
  decide

/-! ## Claim C7 -/

/-- C7: an announce request that supplies `peer_id` twice (with `port` and
`ip` present) drives `parsePeer` into the branch where `ok` stays true while
`strport` is never assigned, and the subsequent `strport[0]` indexes a nil
slice: the handler panics instead of answering with an error body or
processing normally, contradicting the no-panic claim. -/
theorem C7_repeated_peer_id_panics :
    parsePeer [("peer_id", ["a", "b"]), ("port", ["6881"]),
        ("ip", ["10.0.0.1"])] "1.2.3.4:5" = .panicked ∧
      (handleAnnounce ⟨[], []⟩ [("peer_id", ["a", "b"]), ("port", ["6881"]),
        ("ip", ["10.0.0.1"])] "1.2.3.4:5" 0).2 = .panicked := by
  decide

/-! ## Claim C8 -/

/-- C8, counterexample: the supplied value `numwant=0` lies outside the range
1 to 100, yet the effective numwant is 0, not the claimed 100 (Go parses `0`
successfully and `0 > 100` fails, so no clamping occurs). -/
theorem C8_counterexample :
    effectiveNumwant [("numwant", ["0"])] = 0 ∧
      effectiveNumwant [("numwant", ["0"])] ≠ 100 := by
  decide

/-- C8, amended: the effective numwant is 50 when the parameter is absent;
for a value supplied exactly once it is 100 when the value fails to parse as
an 8-bit unsigned integer or parses to more than 100, and otherwise it is the
parsed value itself — including 0. -/
theorem C8_numwant_behaviour (values : Values) (s : String) (v : Nat) :
    (alookup values "numwant" = none → effectiveNumwant values = 50) ∧
    (alookup values "numwant" = some [s] → parseUint s 8 = none →
      effectiveNumwant values = 100) ∧
    (alookup values "numwant" = some [s] → parseUint s 8 = some v → v > 100 →
      effectiveNumwant values = 100) ∧
    (alookup values "numwant" = some [s] → parseUint s 8 = some v → v ≤ 100 →
      effectiveNumwant values = v) := by
  refine ⟨fun h => ?_, fun h hp => ?_, fun h hp hv => ?_, fun h hp hv => ?_⟩
  · simp [effectiveNumwant, h]
  · simp [effectiveNumwant, h, hp]
  · simp [effectiveNumwant, h, hp, hv]
  · have hnv : ¬ (v > 100) := by omega
    simp [effectiveNumwant, h, hp, hnv]

/-- C8, witness for the amended theorem: `numwant=150` parses and exceeds
100, so the effective numwant is clamped to 100. -/
theorem C8_numwant_behaviour_witness :
    effectiveNumwant [("numwant", ["150"])] = 100 :=
  (C8_numwant_behaviour [("numwant", ["150"])] "150" 150).2.2.1
    (by decide) (by decide) (by decide)

/-! ## Claim C10 -/

/-- C10: every `/serve` request whose URI contains no question mark is
answered with the literal body `invalid request` and the handler returns
immediately — no file lookup, no metadata wait, no seed start (those happen
only in the `lookupFile` continuation). -/
theorem C10_no_query_invalid (uri : List Char) (h : '?' ∉ uri) :
    handleServe uri = .invalidRequest := by
  unfold handleServe
  rw [splitQ_eq_none uri h]

/-- C10, witness: the URI `/serve` contains no question mark and is answered
with the invalid-request body. -/
theorem C10_no_query_invalid_witness :
    handleServe ['/', 's', 'e', 'r', 'v', 'e'] = .invalidRequest :=
  C10_no_query_invalid ['/', 's', 'e', 'r', 'v', 'e'] (by decide)

/-! ## Claim C2 -/

/-- C2, counterexample: a request supplying `peer_id`, `port` and `ip` once
each but no `info_hash` is missing a required parameter according to the
claim, yet the handler neither answers `missing required argument` nor leaves
the registry alone: it proceeds and registers the peer under the empty-string
info-hash. -/
theorem C2_counterexample :
    (handleAnnounce ⟨[], []⟩ [("peer_id", ["p1"]), ("port", ["6881"]),
        ("ip", ["10.0.0.1"])] "ra" 5).2 ≠
      .errorBody "missing required argument" ∧
    alookup (peersOf (handleAnnounce ⟨[], []⟩ [("peer_id", ["p1"]),
        ("port", ["6881"]), ("ip", ["10.0.0.1"])] "ra" 5).1 "") "p1" =
      some ⟨"p1", "10.0.0.1", 6881⟩ := by
  decide

/-- C2, amended: for every announce request whose `peer_id` is absent, or
whose `peer_id` is supplied exactly once while `port` is absent, the response
body is the literal `missing required argument` and the handler does no
further processing (the registry is returned untouched); a missing
`info_hash` is not rejected — it is treated as the empty-string info-hash and
processing continues. -/
theorem C2_missing_peer_id_or_port (t : Tracker) (values : Values)
    (remoteAddr : String) (now : Int)
    (h : alookup values "peer_id" = none ∨
      ∃ s, alookup values "peer_id" = some [s] ∧ alookup values "port" = none) :
    handleAnnounce t values remoteAddr now =
      (t, .errorBody "missing required argument") := by
  have hp : parsePeer values remoteAddr = .missingArg := by
    rcases h with h | ⟨s, hs, hport⟩
    · unfold parsePeer
      rw [h]
    · unfold parsePeer
      rw [hs]
      simp [hport]
  unfold handleAnnounce
  rw [hp]

/-- C2, witness for the amended theorem: a request with only `peer_id` is
answered with the missing-argument body and an unchanged registry. -/
theorem C2_missing_peer_id_or_port_witness :
    handleAnnounce ⟨[], []⟩ [("peer_id", ["p"])] "ra" 0 =
      (⟨[], []⟩, .errorBody "missing required argument") :=
  C2_missing_peer_id_or_port ⟨[], []⟩ [("peer_id", ["p"])] "ra" 0
    (Or.inr ⟨"p", by decide, by decide⟩)

/-! ## Claim C9 -/

/-- C9: for every announce response, no peer in the returned list has the
requesting peer's ip, and the length of the returned list is at most the
effective numwant. -/
theorem C9_response_bounds (t : Tracker) (values : Values)
    (remoteAddr : String) (now : Int) (peer : Peer) (out : List Peer)
    (hp : parsePeer values remoteAddr = .ok peer)
    (hout : (handleAnnounce t values remoteAddr now).2 = .ok out) :
    (∀ q ∈ out, q.Ip ≠ peer.Ip) ∧ out.length ≤ effectiveNumwant values := by
  have hshape : (handleAnnounce t values remoteAddr now).2 =
      .ok (selectPeers ((announcePeers2 t values now peer).map (fun e => e.2))
        peer.Ip (effectiveNumwant values)) := by
    unfold handleAnnounce
    rw [hp]
    rfl
  rw [hshape] at hout
  injection hout with hsel
  subst hsel
  exact selectPeers_spec _ _ _

/-- C9, witness: a registry holding a same-ip peer `P1` and a distinct-ip
peer `P2` under info-hash `X`, announced to by a new peer `P3` from
`10.0.0.1`, answers with exactly `[P2]`: no peer shares the requester's ip
and the list is within the effective numwant. -/
theorem C9_response_bounds_witness :
    (∀ q ∈ [Peer.mk "P2" "10.0.0.2" 6882], q.Ip ≠ "10.0.0.1") ∧
      ([Peer.mk "P2" "10.0.0.2" 6882] : List Peer).length ≤
        effectiveNumwant [("info_hash", ["X"]), ("peer_id", ["P3"]),
          ("port", ["8000"]), ("ip", ["10.0.0.1"])] := by
  have h := C9_response_bounds
    ⟨[("X", [("P1", 10), ("P2", 20)])],
     [("X", [("P1", ⟨"P1", "10.0.0.1", 6881⟩),
             ("P2", ⟨"P2", "10.0.0.2", 6882⟩)])]⟩
    [("info_hash", ["X"]), ("peer_id", ["P3"]), ("port", ["8000"]),
     ("ip", ["10.0.0.1"])] "ra" 100 ⟨"P3", "10.0.0.1", 8000⟩
    [⟨"P2", "10.0.0.2", 6882⟩] (by decide) (by decide)
  exact h

/-! ## Claim C1 -/

/-- C1, counterexample: the swarm for `X` holds one entry `B` from
`10.0.0.2` whose own `last_seen` timestamp is 10000 seconds old — far older
than 300 seconds — when a brand-new peer `A` announces from `10.0.0.1`.  The
claim requires `B` to be removed, but the handler keeps it: the 300-second
test inspects the *arriving* peer's `last_seen` entry (absent for `A`), not
each existing entry's own timestamp. -/
theorem C1_counterexample :
    alookup (peersOf (⟨[("X", [("B", 0)])],
        [("X", [("B", ⟨"B", "10.0.0.2", 1⟩)])]⟩ : Tracker) "X") "A" = none ∧
    ((10000 : Int) - 0 > 300) = True ∧
    alookup (peersOf (handleAnnounce
        ⟨[("X", [("B", 0)])], [("X", [("B", ⟨"B", "10.0.0.2", 1⟩)])]⟩
        [("info_hash", ["X"]), ("peer_id", ["A"]), ("port", ["6881"]),
         ("ip", ["10.0.0.1"])] "ra" 10000).1 "X") "B" =
      some ⟨"B", "10.0.0.2", 1⟩ := by
  decide

/-- C1, amended: when the arriving `peer_id` is new to the peer set, the
handler removes from both the peer map and the last-seen map exactly those
existing entries satisfying `purgeCond` — same ip as the arriving peer, or
(for every entry alike) an *arriving-peer* `last_seen` timestamp older than
300 seconds — and leaves every other entry of both maps unchanged, before
inserting the arriving peer. -/
theorem C1_purge_exactly (t : Tracker) (values : Values) (remoteAddr : String)
    (now : Int) (peer : Peer)
    (hp : parsePeer values remoteAddr = .ok peer)
    (hnew : alookup (peersOf t (infoHashOf values)) peer.Id = none)
    (hnd : ((peersOf t (infoHashOf values)).map Prod.fst).Nodup) :
    peersOf (handleAnnounce t values remoteAddr now).1 (infoHashOf values) =
        announcePeers2 t values now peer ∧
    seenOf (handleAnnounce t values remoteAddr now).1 (infoHashOf values) =
        announceSeen2 t values now peer ∧
    (∀ id q, id ≠ peer.Id →
      alookup (peersOf t (infoHashOf values)) id = some q →
      (purgeCond q peer (alookup (seenOf t (infoHashOf values)) peer.Id) now
          = true →
        alookup (announcePeers2 t values now peer) id = none ∧
        alookup (announceSeen2 t values now peer) id = none) ∧
      (purgeCond q peer (alookup (seenOf t (infoHashOf values)) peer.Id) now
          = false →
        alookup (announcePeers2 t values now peer) id = some q ∧
        alookup (announceSeen2 t values now peer) id =
          alookup (seenOf t (infoHashOf values)) id)) ∧
    (∀ id, id ≠ peer.Id →
      alookup (peersOf t (infoHashOf values)) id = none →
      alookup (announcePeers2 t values now peer) id = none ∧
      alookup (announceSeen2 t values now peer) id =
        alookup (seenOf t (infoHashOf values)) id) ∧
    (eventOf values ≠ "stopped" →
      alookup (announcePeers2 t values now peer) peer.Id = some peer) := by
  have hT : (handleAnnounce t values remoteAddr now).1 =
      ⟨aupsert t.PeerSeen (infoHashOf values) (announceSeen2 t values now peer),
       aupsert t.PeerList (infoHashOf values)
         (announcePeers2 t values now peer)⟩ := by
    unfold handleAnnounce
    rw [hp]
    rfl
  have hpurged : announcePurged t values now peer =
      (aupsert (aeraseKeys (peersOf t (infoHashOf values))
          (announceToRemove (peersOf t (infoHashOf values)) peer
            (alookup (seenOf t (infoHashOf values)) peer.Id) now))
        peer.Id peer,
       aeraseKeys (seenOf t (infoHashOf values))
          (announceToRemove (peersOf t (infoHashOf values)) peer
            (alookup (seenOf t (infoHashOf values)) peer.Id) now)) := by
    simp only [announcePurged]
    rw [hnew]
  have hP2 : ∀ id, id ≠ peer.Id →
      alookup (announcePeers2 t values now peer) id =
        alookup (announcePurged t values now peer).1 id := by
    intro id hne
    unfold announcePeers2
    by_cases hev : eventOf values = "stopped"
    · rw [if_pos hev, alookup_aeraseKey_ne _ _ _ hne]
    · rw [if_neg hev]
  have hmemR : ∀ id q, alookup (peersOf t (infoHashOf values)) id = some q →
      (id ∈ announceToRemove (peersOf t (infoHashOf values)) peer
          (alookup (seenOf t (infoHashOf values)) peer.Id) now ↔
        purgeCond q peer (alookup (seenOf t (infoHashOf values)) peer.Id) now
          = true) := by
    intro id q hq
    rw [mem_announceToRemove]
    constructor
    · rintro ⟨q', hq'mem, hc⟩
      have hq' := mem_alookup_of_nodup _ _ _ hnd hq'mem
      rw [hq] at hq'
      cases hq'
      exact hc
    · intro hc
      exact ⟨q, alookup_mem _ _ _ hq, hc⟩
  have hnotR : ∀ id, alookup (peersOf t (infoHashOf values)) id = none →
      id ∉ announceToRemove (peersOf t (infoHashOf values)) peer
        (alookup (seenOf t (infoHashOf values)) peer.Id) now := by
    intro id hq hmem
    obtain ⟨q', hq'mem, _⟩ := (mem_announceToRemove _ _ _ _ _).mp hmem
    have hq' := mem_alookup_of_nodup _ _ _ hnd hq'mem
    rw [hq] at hq'
    cases hq'
  refine ⟨?_, ?_, ?_, ?_, ?_⟩
  · rw [hT]
    simp [peersOf, alookup_aupsert_self]
  · rw [hT]
    simp [seenOf, alookup_aupsert_self]
  · intro id q hne hq
    have hfin : alookup (announcePeers2 t values now peer) id =
        alookup (aeraseKeys (peersOf t (infoHashOf values))
          (announceToRemove (peersOf t (infoHashOf values)) peer
            (alookup (seenOf t (infoHashOf values)) peer.Id) now)) id := by
      rw [hP2 id hne, hpurged, alookup_aupsert_ne _ _ _ _ hne]
    have hfinS : alookup (announceSeen2 t values now peer) id =
        alookup (aeraseKeys (seenOf t (infoHashOf values))
          (announceToRemove (peersOf t (infoHashOf values)) peer
            (alookup (seenOf t (infoHashOf values)) peer.Id) now)) id := by
      unfold announceSeen2
      rw [alookup_aupsert_ne _ _ _ _ hne, hpurged]
    constructor
    · intro hc
      have hmem := (hmemR id q hq).mpr hc
      rw [hfin, hfinS, alookup_aeraseKeys, alookup_aeraseKeys,
        if_pos hmem, if_pos hmem]
      exact ⟨rfl, rfl⟩
    · intro hc
      have hmem : id ∉ announceToRemove (peersOf t (infoHashOf values)) peer
          (alookup (seenOf t (infoHashOf values)) peer.Id) now := by
        intro hmem
        rw [(hmemR id q hq)] at hmem
        rw [hmem] at hc
        cases hc
      rw [hfin, hfinS, alookup_aeraseKeys, alookup_aeraseKeys,
        if_neg hmem, if_neg hmem]
      exact ⟨hq, rfl⟩
  · intro id hne hq
    have hmem := hnotR id hq
    have hfin : alookup (announcePeers2 t values now peer) id =
        alookup (aeraseKeys (peersOf t (infoHashOf values))
          (announceToRemove (peersOf t (infoHashOf values)) peer
            (alookup (seenOf t (infoHashOf values)) peer.Id) now)) id := by
      rw [hP2 id hne, hpurged, alookup_aupsert_ne _ _ _ _ hne]
    have hfinS : alookup (announceSeen2 t values now peer) id =
        alookup (aeraseKeys (seenOf t (infoHashOf values))
          (announceToRemove (peersOf t (infoHashOf values)) peer
            (alookup (seenOf t (infoHashOf values)) peer.Id) now)) id := by
      unfold announceSeen2
      rw [alookup_aupsert_ne _ _ _ _ hne, hpurged]
    rw [hfin, hfinS, alookup_aeraseKeys, alookup_aeraseKeys,
      if_neg hmem, if_neg hmem]
    exact ⟨hq, rfl⟩
  · intro hev
    unfold announcePeers2
    rw [if_neg hev, hpurged]
    exact alookup_aupsert_self _ _ _

/-- C1, witness for the amended theorem: an existing entry `B` sharing the
arriving peer `A`'s ip is removed from both maps. -/
theorem C1_purge_exactly_witness :
    alookup (announcePeers2
      ⟨[("X", [("B", 950)])], [("X", [("B", ⟨"B", "10.0.0.1", 2⟩)])]⟩
      [("info_hash", ["X"]), ("peer_id", ["A"]), ("port", ["6881"]),
       ("ip", ["10.0.0.1"])] 1000 ⟨"A", "10.0.0.1", 6881⟩) "B" = none ∧
    alookup (announceSeen2
      ⟨[("X", [("B", 950)])], [("X", [("B", ⟨"B", "10.0.0.1", 2⟩)])]⟩
      [("info_hash", ["X"]), ("peer_id", ["A"]), ("port", ["6881"]),
       ("ip", ["10.0.0.1"])] 1000 ⟨"A", "10.0.0.1", 6881⟩) "B" = none := by
  have h := (C1_purge_exactly
    ⟨[("X", [("B", 950)])], [("X", [("B", ⟨"B", "10.0.0.1", 2⟩)])]⟩
    [("info_hash", ["X"]), ("peer_id", ["A"]), ("port", ["6881"]),
     ("ip", ["10.0.0.1"])] "ra" 1000 ⟨"A", "10.0.0.1", 6881⟩
    (by decide) (by decide) (by decide)).2.2.1 "B" ⟨"B", "10.0.0.1", 2⟩
    (by decide) (by decide)
  exact h.1 (by decide)

/-! ## Claim C3 -/

/-- C3, counterexample: an announce carrying `event=stopped` from a fresh
peer `p1` against an empty registry ends with `p1` deleted from the peer map
but still present in the last-seen map, so the two key sets differ right
after the handler returns. -/
theorem C3_counterexample :
    alookup (peersOf (handleAnnounce ⟨[], []⟩
      [("info_hash", ["X"]), ("peer_id", ["p1"]), ("port", ["6881"]),
       ("ip", ["10.0.0.1"]), ("event", ["stopped"])] "ra" 1000).1 "X") "p1" =
      none ∧
    alookup (seenOf (handleAnnounce ⟨[], []⟩
      [("info_hash", ["X"]), ("peer_id", ["p1"]), ("port", ["6881"]),
       ("ip", ["10.0.0.1"]), ("event", ["stopped"])] "ra" 1000).1 "X") "p1" =
      some 1000 := by
  decide

/-- C3, amended: provided the peer-map and last-seen key sets agree for every
info-hash before the call, they still agree for every info-hash after any
announce whose event is not `stopped`; an `event=stopped` announce leaves the
arriving `peer_id` in the last-seen map but not in the peer map. -/
theorem C3_sync_preserved (t : Tracker) (values : Values) (remoteAddr : String)
    (now : Int) (peer : Peer)
    (hp : parsePeer values remoteAddr = .ok peer)
    (hev : eventOf values ≠ "stopped")
    (hsync : ∀ h, sameKeys (peersOf t h) (seenOf t h)) :
    ∀ h, sameKeys (peersOf (handleAnnounce t values remoteAddr now).1 h)
      (seenOf (handleAnnounce t values remoteAddr now).1 h) := by
  have hT : (handleAnnounce t values remoteAddr now).1 =
      ⟨aupsert t.PeerSeen (infoHashOf values) (announceSeen2 t values now peer),
       aupsert t.PeerList (infoHashOf values)
         (announcePeers2 t values now peer)⟩ := by
    unfold handleAnnounce
    rw [hp]
    rfl
  intro h
  rw [hT]
  by_cases hh : h = infoHashOf values
  · rw [hh]
    have hP : peersOf
        (⟨aupsert t.PeerSeen (infoHashOf values)
            (announceSeen2 t values now peer),
          aupsert t.PeerList (infoHashOf values)
            (announcePeers2 t values now peer)⟩ : Tracker)
          (infoHashOf values) =
        announcePeers2 t values now peer := by
      simp [peersOf, alookup_aupsert_self]
    have hS : seenOf
        (⟨aupsert t.PeerSeen (infoHashOf values)
            (announceSeen2 t values now peer),
          aupsert t.PeerList (infoHashOf values)
            (announcePeers2 t values now peer)⟩ : Tracker)
          (infoHashOf values) =
        announceSeen2 t values now peer := by
      simp [seenOf, alookup_aupsert_self]
    rw [hP, hS]
    intro id
    by_cases hid : id = peer.Id
    · subst hid
      have hSsome : alookup (announceSeen2 t values now peer) peer.Id =
          some now := by
        unfold announceSeen2
        exact alookup_aupsert_self _ _ _
      have hPsome : (alookup (announcePeers2 t values now peer) peer.Id).isSome := by
        unfold announcePeers2
        rw [if_neg hev]
        unfold announcePurged
        cases hcase : alookup (peersOf t (infoHashOf values)) peer.Id with
        | some q => simp [hcase]
        | none => simp [hcase, alookup_aupsert_self]
      rw [hSsome]
      simpa using hPsome
    · have hPid : alookup (announcePeers2 t values now peer) id =
          alookup (announcePurged t values now peer).1 id := by
        unfold announcePeers2
        rw [if_neg hev]
      have hSid : alookup (announceSeen2 t values now peer) id =
          alookup (announcePurged t values now peer).2 id := by
        unfold announceSeen2
        rw [alookup_aupsert_ne _ _ _ _ hid]
      rw [hPid, hSid]
      unfold announcePurged
      cases hcase : alookup (peersOf t (infoHashOf values)) peer.Id with
      | some q =>
        simp only [hcase]
        exact hsync (infoHashOf values) id
      | none =>
        simp only [hcase]
        rw [alookup_aupsert_ne _ _ _ _ hid, alookup_aeraseKeys,
          alookup_aeraseKeys]
        by_cases hmem : id ∈ announceToRemove (peersOf t (infoHashOf values))
            peer (alookup (seenOf t (infoHashOf values)) peer.Id) now
        · rw [if_pos hmem, if_pos hmem]
          exact Iff.rfl
        · rw [if_neg hmem, if_neg hmem]
          exact hsync (infoHashOf values) id
  · have hP : peersOf
        (⟨aupsert t.PeerSeen (infoHashOf values)
            (announceSeen2 t values now peer),
          aupsert t.PeerList (infoHashOf values)
            (announcePeers2 t values now peer)⟩ : Tracker) h =
        peersOf t h := by
      simp [peersOf, alookup_aupsert_ne _ _ _ _ hh]
    have hS : seenOf
        (⟨aupsert t.PeerSeen (infoHashOf values)
            (announceSeen2 t values now peer),
          aupsert t.PeerList (infoHashOf values)
            (announcePeers2 t values now peer)⟩ : Tracker) h =
        seenOf t h := by
      simp [seenOf, alookup_aupsert_ne _ _ _ _ hh]
    rw [hP, hS]
    exact hsync h

/-- C3, witness for the amended theorem: a plain announce by `p1` against an
empty registry leaves the two key sets for `X` equal. -/
theorem C3_sync_preserved_witness :
    sameKeys
      (peersOf (handleAnnounce ⟨[], []⟩
        [("info_hash", ["X"]), ("peer_id", ["p1"]), ("port", ["6881"]),
         ("ip", ["10.0.0.1"])] "ra" 7).1 "X")
      (seenOf (handleAnnounce ⟨[], []⟩
        [("info_hash", ["X"]), ("peer_id", ["p1"]), ("port", ["6881"]),
         ("ip", ["10.0.0.1"])] "ra" 7).1 "X") :=
  C3_sync_preserved ⟨[], []⟩
    [("info_hash", ["X"]), ("peer_id", ["p1"]), ("port", ["6881"]),
     ("ip", ["10.0.0.1"])] "ra" 7 ⟨"p1", "10.0.0.1", 6881⟩
    (by decide) (by decide) (fun _ _ => Iff.rfl) "X"

end Distributor
